import Mathlib

/-!
Shallow embedding of the trusted-checkpoint subsystem of the Dinastycoin
node (`src/checkpoints/checkpoints.cpp`), together with proofs about its
behaviour.

The C++ class `cryptonote::checkpoints` owns two `std::map`s:
`m_points : map<uint64_t, crypto::hash>` and
`m_difficulty_points : map<uint64_t, difficulty_type>`.  We model each
`std::map` by an association list (unique keys as maintained by the
update operation); the order-sensitive `std::map` operations
(`rbegin`, `--end()`, `upper_bound`) depend only on the key set, so they
are modelled by key-set computations (`maxKey`, `maxKeyLE`), with the
correspondence noted at each definition.  Member functions become pure
functions: a mutating member takes the object state and returns the new
state paired with the C++ return value; a `const` member returns its
result (for `check_for_conflicts` we still return the receiver state so
that post-call contents can be stated).
-/

namespace cryptonote

abbrev Height := Nat

/-- A decoded `crypto::hash` (32 raw bytes), as produced by
`epee::string_tools::hex_to_pod`. -/
abbrev Hash := List Nat

/-- Value of one hexadecimal digit, accepting both cases, as the epee hex
decoder does; `none` on a non-hex character. -/
def hexDigitVal (c : Char) : Option Nat :=
  if '0' ≤ c ∧ c ≤ '9' then some (c.toNat - '0'.toNat)
  else if 'a' ≤ c ∧ c ≤ 'f' then some (c.toNat - 'a'.toNat + 10)
  else if 'A' ≤ c ∧ c ≤ 'F' then some (c.toNat - 'A'.toNat + 10)
  else none

/-- Decode consecutive pairs of hex digits into bytes; fails on any
non-hex character or on an odd-length tail. -/
def hexPairsToBytes : List Char → Option (List Nat)
  | [] => some []
  | c1 :: c2 :: rest =>
    match hexDigitVal c1, hexDigitVal c2, hexPairsToBytes rest with
    | some hi, some lo, some tl => some ((16 * hi + lo) :: tl)
    | _, _, _ => none
  | [_] => none

/-- `epee::string_tools::hex_to_pod` specialised to `crypto::hash`: the
string must be exactly 64 hex characters (2 × 32 bytes) and decode
cleanly; any failure leaves the caller with `false`. -/
def hex_to_pod (s : String) : Option Hash :=
  if s.length = 64 then hexPairsToBytes s.data else none

/-- `difficulty_type difficulty(difficulty_str)`: the boost
multiprecision integer constructor, which throws on a malformed string.
Modelled as decimal parsing returning `none` on the throwing inputs. -/
def parseDifficulty (s : String) : Option Nat :=
  if s.data ≠ [] ∧ s.data.all (fun c => '0' ≤ c ∧ c ≤ '9')
  then some (s.data.foldl (fun acc c => 10 * acc + (c.toNat - '0'.toNat)) 0)
  else none

/-- `map.find` / `map.count` / `map.at`: first binding of a key in the
association list. -/
def mapFind? {α : Type} : List (Height × α) → Height → Option α
  | [], _ => none
  | (k, v) :: rest, key => if key = k then some v else mapFind? rest key

/-- `map[key] = value`: replace the binding of `key` if present,
otherwise append a new binding. -/
def mapUpdate {α : Type} : List (Height × α) → Height → α → List (Height × α)
  | [], key, value => [(key, value)]
  | (k, v) :: rest, key, value =>
    if key = k then (key, value) :: rest else (k, v) :: mapUpdate rest key value

/-- The keys of a map. -/
def mapKeys {α : Type} (l : List (Height × α)) : List Height := l.map Prod.fst

/-- Largest key of the map, `0` when empty: the key reached by
`m_points.rbegin()` / `--m_points.end()` on a non-empty `std::map`. -/
def maxKey {α : Type} (l : List (Height × α)) : Height :=
  l.foldr (fun p acc => max p.1 acc) 0

/-- Largest key that is `≤ h`, or `none` when every key exceeds `h`:
on a `std::map` this is the element reached by
`--(upper_bound h)`, and `none` is exactly the `upper_bound h == begin()`
case. -/
def maxKeyLE {α : Type} : List (Height × α) → Height → Option Height
  | [], _ => none
  | (k, _) :: rest, h =>
    match maxKeyLE rest h with
    | none => if k ≤ h then some k else none
    | some m => if k ≤ h then some (max k m) else some m

/-- The `cryptonote::checkpoints` object state: the two member maps. -/
structure checkpoints where
  m_points : List (Height × Hash)
  m_difficulty_points : List (Height × Nat)
  deriving DecidableEq

/-- The freshly constructed (empty) checkpoints object. -/
def cpEmpty : checkpoints := ⟨[], []⟩

/-- Second half of `checkpoints::add_checkpoint`, entered once the hash
string has decoded and any existing hash anchor matched: stores the hash
unconditionally, then (when `difficulty_str` is non-empty) parses the
difficulty, rejects a differing existing difficulty anchor, and stores
the difficulty.  The difficulty parse failure (`catch`) and the
difficulty conflict both return `false` with the hash already stored. -/
def add_checkpoint_tail (st : checkpoints) (height : Height) (h : Hash)
    (difficulty_str : String) : checkpoints × Bool :=
  let st1 : checkpoints := { st with m_points := mapUpdate st.m_points height h }
  if difficulty_str = "" then (st1, true)
  else
    match parseDifficulty difficulty_str with
    | none => (st1, false)
    | some d =>
      match mapFind? st1.m_difficulty_points height with
      | some dstored =>
        if dstored = d then
          ({ st1 with m_difficulty_points := mapUpdate st1.m_difficulty_points height d }, true)
        else (st1, false)
      | none =>
        ({ st1 with m_difficulty_points := mapUpdate st1.m_difficulty_points height d }, true)

/-- `checkpoints::add_checkpoint(height, hash_str, difficulty_str)`:
decode the hash string (failure → `false`, nothing stored); reject when
`height` already holds a different hash (`false`, nothing stored);
otherwise store and handle the optional difficulty. -/
def add_checkpoint (st : checkpoints) (height : Height) (hash_str : String)
    (difficulty_str : String) : checkpoints × Bool :=
  match hex_to_pod hash_str with
  | none => (st, false)
  | some h =>
    match mapFind? st.m_points height with
    | some stored =>
      if stored = h then add_checkpoint_tail st height h difficulty_str
      else (st, false)
    | none => add_checkpoint_tail st height h difficulty_str

/-- `checkpoints::is_in_checkpoint_zone`:
`!m_points.empty() && height <= (--m_points.end())->first`. -/
def is_in_checkpoint_zone (st : checkpoints) (height : Height) : Bool :=
  !st.m_points.isEmpty && decide (height ≤ maxKey st.m_points)

/-- `checkpoints::check_block(height, h, is_a_checkpoint)`: returns the
pair (overall result, `is_a_checkpoint`).  An unregistered height yields
`(true, false)`; a registered one compares hashes. -/
def check_block (st : checkpoints) (height : Height) (h : Hash) : Bool × Bool :=
  match mapFind? st.m_points height with
  | none => (true, false)
  | some stored => (decide (stored = h), true)

/-- `checkpoints::is_alternative_block_allowed(blockchain_height,
block_height)`: `false` on a zero `block_height`; `true` when
`upper_bound(blockchain_height) == begin()` (no checkpoint at or below
`blockchain_height`, i.e. `maxKeyLE` is `none`); otherwise compare the
predecessor checkpoint height (`--it`) against `block_height`. -/
def is_alternative_block_allowed (st : checkpoints)
    (blockchain_height block_height : Height) : Bool :=
  if block_height = 0 then false
  else
    match maxKeyLE st.m_points blockchain_height with
    | none => true
    | some checkpoint_height => decide (checkpoint_height < block_height)

/-- `checkpoints::get_max_height`: `0` on an empty map, else the key of
`m_points.rbegin()`. -/
def get_max_height (st : checkpoints) : Height :=
  match st.m_points with
  | [] => 0
  | _ :: _ => maxKey st.m_points

/-- The loop of `checkpoints::check_for_conflicts`: scan the points of
the other store in order; at the first height that this store also holds
with a different hash, `CHECK_AND_ASSERT_MES` returns `false`. -/
def conflict_scan (st : checkpoints) : List (Height × Hash) → Bool
  | [] => true
  | (k, v) :: rest =>
    match mapFind? st.m_points k with
    | some mine => if v = mine then conflict_scan st rest else false
    | none => conflict_scan st rest

/-- `checkpoints::check_for_conflicts(other)`: a `const` member — it
only scans, so the receiver state comes back unchanged alongside the
boolean verdict. -/
def check_for_conflicts (st other : checkpoints) : checkpoints × Bool :=
  (st, conflict_scan st other.m_points)

/-- One record of the checkpoints JSON file (`t_hashline`). -/
structure t_hashline where
  height : Nat
  hash : String
  deriving DecidableEq

/-- Modelled from the spec: the `ADD_CHECKPOINT(h, hash)` macro lives in
`checkpoints.h`, which is not among the sources here.  Per the spec a
record is "inserted via the normal conflict-checked path" and an
insertion failure is surfaced by the enclosing load, so the macro is
modelled as `add_checkpoint` with no difficulty, the enclosing loop
aborting with `false` when it fails. -/
def ADD_CHECKPOINT (st : checkpoints) (height : Height) (hash_str : String) :
    checkpoints × Bool :=
  add_checkpoint st height hash_str ""

/-- The record loop of `checkpoints::load_checkpoints_from_json`: a
record at or below the pre-captured watermark is skipped; any other is
fed through `ADD_CHECKPOINT`, a failure aborting the load. -/
def load_hashlines (st : checkpoints) (prev_max_height : Height) :
    List t_hashline → checkpoints × Bool
  | [] => (st, true)
  | line :: rest =>
    if line.height ≤ prev_max_height then load_hashlines st prev_max_height rest
    else
      match ADD_CHECKPOINT st line.height line.hash with
      | (st2, true) => load_hashlines st2 prev_max_height rest
      | (st2, false) => (st2, false)

/-- `checkpoints::load_checkpoints_from_json`, from the point where the
file has been found and parsed into `hashlines` (the filesystem check
and JSON parsing are external I/O): capture
`prev_max_height = get_max_height()` and run the record loop. -/
def load_checkpoints_from_json (st : checkpoints) (hashlines : List t_hashline) :
    checkpoints × Bool :=
  load_hashlines st (get_max_height st) hashlines

/-- A store holding checkpoints at exactly the heights 100 and 500
(the configuration used by the testable properties of the spec). -/
def cpStore100_500 : checkpoints := ⟨[(100, [1]), (500, [2])], []⟩

/-- A store with anchors at heights 10 and 20. -/
def cpA : checkpoints := ⟨[(10, [1]), (20, [2])], []⟩

/-- A store agreeing with `cpA` at height 10 and disagreeing at 20. -/
def cpB : checkpoints := ⟨[(10, [1]), (20, [3])], []⟩

/-- 64 zero hex characters: a well-formed hash string. -/
def hexZeros : String :=
  "0000000000000000000000000000000000000000000000000000000000000000"

/-- 64 one hex characters: a well-formed hash string distinct from
`hexZeros`. -/
def hexOnes : String :=
  "1111111111111111111111111111111111111111111111111111111111111111"

/-- The decoding of `hexZeros`. -/
def hashZeros : Hash := List.replicate 32 0

/-- The decoding of `hexOnes` (byte 0x11 = 17, repeated). -/
def hashOnes : Hash := List.replicate 32 17

/-- A store whose hash map holds `hashZeros` at height 7. -/
def cpZeros : checkpoints := ⟨[(7, hashZeros)], []⟩

/-- A store with a difficulty anchor 5 at height 7 and no hash anchor. -/
def cpDiff : checkpoints := ⟨[], [(7, 5)]⟩

/-! ### Association-list map lemmas -/

theorem mapFind?_update_self {α : Type} (l : List (Height × α)) (k : Height) (v : α) :
    mapFind? (mapUpdate l k v) k = some v := by
  induction l with
  | nil => simp [mapUpdate, mapFind?]
  | cons p rest ih =>
    obtain ⟨k0, v0⟩ := p
    by_cases hk : k = k0
    · simp [mapUpdate, hk, mapFind?]
    · simp [mapUpdate, hk, mapFind?, ih]

theorem mapUpdate_self {α : Type} (l : List (Height × α)) (k : Height) (v : α)
    (hfind : mapFind? l k = some v) : mapUpdate l k v = l := by
  induction l with
  | nil => simp [mapFind?] at hfind
  | cons p rest ih =>
    obtain ⟨k0, v0⟩ := p
    by_cases hk : k = k0
    · simp [mapFind?, hk] at hfind
      simp [mapUpdate, hk, hfind]
    · simp [mapFind?, hk] at hfind
      simp [mapUpdate, hk, ih hfind]

theorem mapKeys_cons {α : Type} (p : Height × α) (l : List (Height × α)) :
    mapKeys (p :: l) = p.1 :: mapKeys l := rfl

theorem maxKey_cons {α : Type} (p : Height × α) (l : List (Height × α)) :
    maxKey (p :: l) = max p.1 (maxKey l) := rfl

theorem maxKey_mem {α : Type} (l : List (Height × α)) (hne : l ≠ []) :
    maxKey l ∈ mapKeys l := by
  induction l with
  | nil => exact absurd rfl hne
  | cons p rest ih =>
    rcases hr : rest with _ | ⟨q, rest2⟩
    · simp [maxKey_cons, maxKey, mapKeys]
    · rw [← hr]
      have hmem : maxKey rest ∈ mapKeys rest := ih (by rw [hr]; simp)
      rcases le_total p.1 (maxKey rest) with hcmp | hcmp
      · rw [maxKey_cons, max_eq_right hcmp, mapKeys_cons]
        exact List.mem_cons_of_mem _ hmem
      · rw [maxKey_cons, max_eq_left hcmp, mapKeys_cons]
        exact List.mem_cons_self _ _

theorem maxKey_ub {α : Type} (l : List (Height × α)) :
    ∀ k ∈ mapKeys l, k ≤ maxKey l := by
  induction l with
  | nil => simp [mapKeys]
  | cons p rest ih =>
    intro k hk
    rw [mapKeys_cons] at hk
    rw [maxKey_cons]
    rcases List.mem_cons.mp hk with rfl | hk2
    · exact le_max_left _ _
    · exact le_trans (ih k hk2) (le_max_right _ _)

theorem get_max_height_eq_maxKey (st : checkpoints) (hne : st.m_points ≠ []) :
    get_max_height st = maxKey st.m_points := by
  cases hp : st.m_points with
  | nil => exact absurd hp hne
  | cons p rest => simp [get_max_height, hp]

theorem get_max_height_of_nil (st : checkpoints) (hp : st.m_points = []) :
    get_max_height st = 0 := by
  simp [get_max_height, hp]

theorem maxKeyLE_cons {α : Type} (k0 : Height) (v0 : α) (rest : List (Height × α))
    (h : Height) :
    maxKeyLE ((k0, v0) :: rest) h =
      match maxKeyLE rest h with
      | none => if k0 ≤ h then some k0 else none
      | some m => if k0 ≤ h then some (max k0 m) else some m := rfl

theorem maxKeyLE_cons_of_none {α : Type} (k0 : Height) (v0 : α)
    (rest : List (Height × α)) (h : Height) (hrec : maxKeyLE rest h = none) :
    maxKeyLE ((k0, v0) :: rest) h = if k0 ≤ h then some k0 else none := by
  rw [maxKeyLE_cons, hrec]

theorem maxKeyLE_cons_of_some {α : Type} (k0 : Height) (v0 : α)
    (rest : List (Height × α)) (h m0 : Height)
    (hrec : maxKeyLE rest h = some m0) :
    maxKeyLE ((k0, v0) :: rest) h =
      if k0 ≤ h then some (max k0 m0) else some m0 := by
  rw [maxKeyLE_cons, hrec]

theorem maxKeyLE_eq_none_iff {α : Type} (l : List (Height × α)) (h : Height) :
    maxKeyLE l h = none ↔ ∀ k ∈ mapKeys l, h < k := by
  induction l with
  | nil => simp [maxKeyLE, mapKeys]
  | cons p rest ih =>
    obtain ⟨k0, v0⟩ := p
    cases hrec : maxKeyLE rest h with
    | none =>
      rw [maxKeyLE_cons_of_none k0 v0 rest h hrec, mapKeys_cons]
      have hall : ∀ k ∈ mapKeys rest, h < k := ih.mp hrec
      by_cases hk : k0 ≤ h
      · rw [if_pos hk]
        constructor
        · intro heq; cases heq
        · intro hforall
          exact absurd (hforall k0 (List.mem_cons_self _ _)) (not_lt.mpr hk)
      · rw [if_neg hk]
        constructor
        · intro _ k hkmem
          rcases List.mem_cons.mp hkmem with rfl | hk2
          · exact lt_of_not_le hk
          · exact hall k hk2
        · intro _; rfl
    | some m =>
      rw [maxKeyLE_cons_of_some k0 v0 rest h m hrec, mapKeys_cons]
      have hnot : ¬ ∀ k ∈ mapKeys rest, h < k := by
        intro hall
        rw [ih.mpr hall] at hrec
        cases hrec
      constructor
      · intro heq
        by_cases hk : k0 ≤ h
        · rw [if_pos hk] at heq; cases heq
        · rw [if_neg hk] at heq; cases heq
      · intro hforall
        exact absurd (fun k hk2 => hforall k (List.mem_cons_of_mem _ hk2)) hnot

theorem maxKeyLE_some_spec {α : Type} {l : List (Height × α)} {h m : Height}
    (hsome : maxKeyLE l h = some m) :
    m ∈ mapKeys l ∧ m ≤ h ∧ ∀ k ∈ mapKeys l, k ≤ h → k ≤ m := by
  induction l generalizing m with
  | nil => simp [maxKeyLE] at hsome
  | cons p rest ih =>
    obtain ⟨k0, v0⟩ := p
    cases hrec : maxKeyLE rest h with
    | none =>
      rw [maxKeyLE_cons_of_none k0 v0 rest h hrec] at hsome
      have hall : ∀ k ∈ mapKeys rest, h < k := (maxKeyLE_eq_none_iff rest h).mp hrec
      by_cases hk : k0 ≤ h
      · rw [if_pos hk] at hsome
        injection hsome with hm
        subst hm
        refine ⟨List.mem_cons_self _ _, hk, ?_⟩
        intro k hkmem hkle
        rcases List.mem_cons.mp hkmem with rfl | hk2
        · exact le_refl _
        · exact absurd hkle (not_le.mpr (hall k hk2))
      · rw [if_neg hk] at hsome; cases hsome
    | some m0 =>
      rw [maxKeyLE_cons_of_some k0 v0 rest h m0 hrec] at hsome
      obtain ⟨hmem0, hle0, hub0⟩ := ih hrec
      by_cases hk : k0 ≤ h
      · rw [if_pos hk] at hsome
        injection hsome with hm
        subst hm
        refine ⟨?_, max_le hk hle0, ?_⟩
        · rcases le_total k0 m0 with hcmp | hcmp
          · rw [max_eq_right hcmp]
            exact List.mem_cons_of_mem _ hmem0
          · rw [max_eq_left hcmp]
            exact List.mem_cons_self _ _
        · intro k hkmem hkle
          rcases List.mem_cons.mp hkmem with rfl | hk2
          · exact le_max_left _ _
          · exact le_trans (hub0 k hk2 hkle) (le_max_right _ _)
      · rw [if_neg hk] at hsome
        injection hsome with hm
        subst hm
        refine ⟨List.mem_cons_of_mem _ hmem0, hle0, ?_⟩
        intro k hkmem hkle
        rcases List.mem_cons.mp hkmem with rfl | hk2
        · exact absurd hkle hk
        · exact hub0 k hk2 hkle

theorem maxKeyLE_eq_some_of_greatest {α : Type} {l : List (Height × α)}
    {h k : Height} (hmem : k ∈ mapKeys l) (hle : k ≤ h)
    (hgreat : ∀ k2 ∈ mapKeys l, k2 ≤ h → k2 ≤ k) :
    maxKeyLE l h = some k := by
  cases hres : maxKeyLE l h with
  | none =>
    have := (maxKeyLE_eq_none_iff l h).mp hres k hmem
    exact absurd hle (not_le.mpr this)
  | some m =>
    obtain ⟨hmem0, hle0, hub0⟩ := maxKeyLE_some_spec hres
    have h1 : m ≤ k := hgreat m hmem0 hle0
    have h2 : k ≤ m := hub0 k hmem hle
    rw [le_antisymm h1 h2]

theorem conflict_scan_eq_false {st : checkpoints} {l : List (Height × Hash)}
    {k : Height} {v mine : Hash} (hmem : (k, v) ∈ l)
    (hfind : mapFind? st.m_points k = some mine) (hne : v ≠ mine) :
    conflict_scan st l = false := by
  induction l with
  | nil => cases hmem
  | cons p rest ih =>
    obtain ⟨k0, v0⟩ := p
    rcases List.mem_cons.mp hmem with heq | hmem2
    · rw [← heq]
      simp [conflict_scan, hfind, hne]
    · cases hf0 : mapFind? st.m_points k0 with
      | none => simpa [conflict_scan, hf0] using ih hmem2
      | some mine0 =>
        by_cases hv0 : v0 = mine0
        · simpa [conflict_scan, hf0, hv0] using ih hmem2
        · simp [conflict_scan, hf0, hv0]

theorem conflict_scan_eq_true {st : checkpoints} {l : List (Height × Hash)}
    (hagree : ∀ k v, (k, v) ∈ l →
      ∀ mine, mapFind? st.m_points k = some mine → v = mine) :
    conflict_scan st l = true := by
  induction l with
  | nil => rfl
  | cons p rest ih =>
    obtain ⟨k0, v0⟩ := p
    have htail : ∀ k v, (k, v) ∈ rest →
        ∀ mine, mapFind? st.m_points k = some mine → v = mine :=
      fun k v hmem mine hf => hagree k v (List.mem_cons_of_mem _ hmem) mine hf
    cases hf0 : mapFind? st.m_points k0 with
    | none => simpa [conflict_scan, hf0] using ih htail
    | some mine0 =>
      have hv0 : v0 = mine0 :=
        hagree k0 v0 (List.mem_cons_self _ _) mine0 hf0
      simpa [conflict_scan, hf0, hv0] using ih htail

theorem load_hashlines_stale (st : checkpoints) (pm : Height)
    (lines : List t_hashline) (hstale : ∀ line ∈ lines, line.height ≤ pm) :
    load_hashlines st pm lines = (st, true) := by
  induction lines with
  | nil => rfl
  | cons line rest ih =>
    have h1 : line.height ≤ pm := hstale line (List.mem_cons_self _ _)
    rw [load_hashlines, if_pos h1]
    exact ih (fun l hl => hstale l (List.mem_cons_of_mem _ hl))

theorem parseDifficulty_empty : parseDifficulty "" = none := rfl

/-! ### Claim theorems -/

/-- Claim C10: when the hash string does not decode as a valid
hex-encoded hash, `add_checkpoint` (which performs the hex decoding via
`hex_to_pod` as its first step) returns failure and leaves both the hash
mapping and the difficulty mapping unchanged. -/
theorem C10_add_checkpoint_decode_failure (st : checkpoints) (height : Height)
    (hash_str difficulty_str : String) (hdec : hex_to_pod hash_str = none) :
    add_checkpoint st height hash_str difficulty_str = (st, false) := by
  simp [add_checkpoint, hdec]

theorem C10_add_checkpoint_decode_failure_witness :
    add_checkpoint cpZeros 7 "zz" "" = (cpZeros, false) :=
  C10_add_checkpoint_decode_failure cpZeros 7 "zz" "" (by decide)

/-- Claim C3: inserting a different hash at a height that already holds
a hash anchor returns failure and leaves both mappings unchanged; the
height still maps to the original hash afterwards. -/
theorem C3_add_checkpoint_hash_conflict (st : checkpoints) (height : Height)
    (hash_str difficulty_str : String) (h hstored : Hash)
    (hdec : hex_to_pod hash_str = some h)
    (hfound : mapFind? st.m_points height = some hstored)
    (hne : hstored ≠ h) :
    add_checkpoint st height hash_str difficulty_str = (st, false) ∧
      mapFind? (add_checkpoint st height hash_str difficulty_str).1.m_points height
        = some hstored := by
  have hres : add_checkpoint st height hash_str difficulty_str = (st, false) := by
    simp [add_checkpoint, hdec, hfound, hne]
  exact ⟨hres, by rw [hres]; exact hfound⟩

theorem C3_add_checkpoint_hash_conflict_witness :
    add_checkpoint cpZeros 7 hexOnes "" = (cpZeros, false) ∧
      mapFind? (add_checkpoint cpZeros 7 hexOnes "").1.m_points 7 = some hashZeros :=
  C3_add_checkpoint_hash_conflict cpZeros 7 hexOnes "" hashOnes hashZeros
    (by decide) (by decide) (by decide)

/-- Claim C9: re-inserting the exact same (height, hash) pair that the
store already holds succeeds and leaves the store contents unchanged. -/
theorem C9_add_checkpoint_idempotent (st : checkpoints) (height : Height)
    (hash_str : String) (h : Hash)
    (hdec : hex_to_pod hash_str = some h)
    (hfound : mapFind? st.m_points height = some h) :
    add_checkpoint st height hash_str "" = (st, true) := by
  obtain ⟨pts, dpts⟩ := st
  have hupd : mapUpdate pts height h = pts := mapUpdate_self _ _ _ hfound
  simp [add_checkpoint, hdec, hfound, add_checkpoint_tail, hupd]

theorem C9_add_checkpoint_idempotent_witness :
    add_checkpoint cpZeros 7 hexZeros "" = (cpZeros, true) :=
  C9_add_checkpoint_idempotent cpZeros 7 hexZeros hashZeros (by decide) (by decide)

/-- Claim C5: when the hash step succeeds but the height already holds
a differing difficulty anchor, the difficulty check is applied on its
own: the call reports failure, the original difficulty anchor is
retained (the difficulty mapping is unchanged), and the hash anchor is
nevertheless recorded in the hash mapping. -/
theorem C5_add_checkpoint_difficulty_conflict (st : checkpoints) (height : Height)
    (hash_str difficulty_str : String) (h : Hash) (d dstored : Nat)
    (hdec : hex_to_pod hash_str = some h)
    (hhash : mapFind? st.m_points height = none ∨ mapFind? st.m_points height = some h)
    (hd : parseDifficulty difficulty_str = some d)
    (hdstored : mapFind? st.m_difficulty_points height = some dstored)
    (hne : dstored ≠ d) :
    (add_checkpoint st height hash_str difficulty_str).2 = false ∧
    mapFind? (add_checkpoint st height hash_str difficulty_str).1.m_points height
      = some h ∧
    (add_checkpoint st height hash_str difficulty_str).1.m_difficulty_points
      = st.m_difficulty_points ∧
    mapFind? (add_checkpoint st height hash_str difficulty_str).1.m_difficulty_points
      height = some dstored := by
  obtain ⟨pts, dpts⟩ := st
  have hnee : difficulty_str ≠ "" := by
    intro he
    rw [he, parseDifficulty_empty] at hd
    cases hd
  have htail : add_checkpoint ⟨pts, dpts⟩ height hash_str difficulty_str =
      (⟨mapUpdate pts height h, dpts⟩, false) := by
    rcases hhash with hnone | hsome
    · simp [add_checkpoint, hdec, hnone, add_checkpoint_tail, hnee, hd, hdstored, hne]
    · simp [add_checkpoint, hdec, hsome, add_checkpoint_tail, hnee, hd, hdstored, hne]
  rw [htail]
  exact ⟨rfl, mapFind?_update_self _ _ _, rfl, hdstored⟩

theorem C5_add_checkpoint_difficulty_conflict_witness :
    (add_checkpoint cpDiff 7 hexZeros "9").2 = false ∧
    mapFind? (add_checkpoint cpDiff 7 hexZeros "9").1.m_points 7 = some hashZeros ∧
    (add_checkpoint cpDiff 7 hexZeros "9").1.m_difficulty_points
      = cpDiff.m_difficulty_points ∧
    mapFind? (add_checkpoint cpDiff 7 hexZeros "9").1.m_difficulty_points 7 = some 5 :=
  C5_add_checkpoint_difficulty_conflict cpDiff 7 hexZeros "9" hashZeros 9 5
    (by decide) (Or.inl (by decide)) (by decide) (by decide) (by decide)

/-- Claim C6: `check_block` at an unregistered height returns the
pass-through pair (result `true`, `is_a_checkpoint` `false`); at a
registered height it returns a match (result `true`,
`is_a_checkpoint` `true`) exactly when the stored hash equals the
candidate, and a mismatch (result `false`, `is_a_checkpoint` `true`)
otherwise. -/
theorem C6_check_block_three_way (st : checkpoints) (height : Height) (cand : Hash) :
    (mapFind? st.m_points height = none → check_block st height cand = (true, false)) ∧
    ∀ stored, mapFind? st.m_points height = some stored →
      ((check_block st height cand = (true, true) ↔ stored = cand) ∧
       (check_block st height cand = (false, true) ↔ stored ≠ cand)) := by
  constructor
  · intro hnone
    simp [check_block, hnone]
  · intro stored hsome
    by_cases heq : stored = cand
    · simp [check_block, hsome, heq]
    · simp [check_block, hsome, heq]

theorem C6_check_block_three_way_witness :
    check_block cpZeros 7 hashZeros = (true, true) :=
  (((C6_check_block_three_way cpZeros 7 hashZeros).2 hashZeros (by decide)).1).mpr rfl

/-- Claim C7: `is_in_checkpoint_zone` holds exactly when the hash map is
non-empty and the height is at most `get_max_height` (which is the
largest key of the hash map on a non-empty store and `0` on an empty
one); on an empty store the zone test is false at every height. -/
theorem C7_is_in_checkpoint_zone_iff (st : checkpoints) (height : Height) :
    (is_in_checkpoint_zone st height = true ↔
        st.m_points ≠ [] ∧ height ≤ get_max_height st) ∧
    (st.m_points ≠ [] → get_max_height st ∈ mapKeys st.m_points ∧
        ∀ k ∈ mapKeys st.m_points, k ≤ get_max_height st) ∧
    (st.m_points = [] → get_max_height st = 0 ∧
        ∀ hgt : Height, is_in_checkpoint_zone st hgt = false) := by
  refine ⟨?_, ?_, ?_⟩
  · cases hp : st.m_points with
    | nil => simp [is_in_checkpoint_zone, hp]
    | cons p rest =>
      rw [get_max_height_eq_maxKey st (by rw [hp]; simp)]
      simp [is_in_checkpoint_zone, hp]
  · intro hne
    rw [get_max_height_eq_maxKey st hne]
    exact ⟨maxKey_mem _ hne, maxKey_ub _⟩
  · intro hp
    exact ⟨get_max_height_of_nil st hp, fun hgt => by simp [is_in_checkpoint_zone, hp]⟩

theorem C7_is_in_checkpoint_zone_iff_witness :
    get_max_height cpA ∈ mapKeys cpA.m_points ∧
      ∀ k ∈ mapKeys cpA.m_points, k ≤ get_max_height cpA :=
  (C7_is_in_checkpoint_zone_iff cpA 0).2.1 (by decide)

/-- Claim C8: the JSON loader skips every record whose height is at or
below the watermark captured before the loop, and feeds the others
through the conflict-checked insertion path; hence when every record is
at or below that watermark the load succeeds with both mappings
unchanged. -/
theorem C8_load_checkpoints_from_json_stale :
    (∀ (st : checkpoints) (pm : Height) (line : t_hashline)
        (rest : List t_hashline), line.height ≤ pm →
        load_hashlines st pm (line :: rest) = load_hashlines st pm rest) ∧
    ∀ (st : checkpoints) (hashlines : List t_hashline),
      (∀ line ∈ hashlines, line.height ≤ get_max_height st) →
      load_checkpoints_from_json st hashlines = (st, true) := by
  constructor
  · intro st pm line rest hle
    rw [load_hashlines, if_pos hle]
  · intro st hashlines hstale
    exact load_hashlines_stale st (get_max_height st) hashlines hstale

theorem C8_load_checkpoints_from_json_stale_witness :
    load_checkpoints_from_json cpA [⟨10, hexZeros⟩, ⟨20, hexOnes⟩] = (cpA, true) :=
  C8_load_checkpoints_from_json_stale.2 cpA [⟨10, hexZeros⟩, ⟨20, hexOnes⟩] (by decide)

/-- Claim C4: a zero fork height is never allowed, for every store and
every chain height; and on a store whose checkpoint heights are exactly
100 and 500, the pair (chain 50, fork 10) is allowed, (600, 90) is
rejected and (600, 501) is allowed, whatever the stored hashes are. -/
theorem C4_alternative_block_allowed_examples :
    (∀ (st : checkpoints) (ch : Height),
        is_alternative_block_allowed st ch 0 = false) ∧
    ∀ h1 h2 : Hash,
      is_alternative_block_allowed ⟨[(100, h1), (500, h2)], []⟩ 50 10 = true ∧
      is_alternative_block_allowed ⟨[(100, h1), (500, h2)], []⟩ 600 90 = false ∧
      is_alternative_block_allowed ⟨[(100, h1), (500, h2)], []⟩ 600 501 = true := by
  constructor
  · intro st ch
    simp [is_alternative_block_allowed]
  · intro h1 h2
    exact ⟨rfl, rfl, rfl⟩

/-- Claim C1, counterexample: on the store with checkpoints exactly at
heights 100 and 500, with chain height 600 and fork height 90, no
checkpoint height is strictly greater than the chain height, yet the
function returns false — refuting the claim that the branch is allowed
whenever no checkpoint lies strictly above the chain height. -/
theorem C1_counterexample :
    (∀ k ∈ mapKeys cpStore100_500.m_points, k ≤ 600) ∧
      is_alternative_block_allowed cpStore100_500 600 90 = false := by
  decide

/-- Claim C1 (amended): for a positive fork height, when the upper-bound
search lands at the start of the key set — every checkpoint height is
strictly greater than the chain height, i.e. the store is empty or the
chain height is below the very first checkpoint — the branch is
allowed; otherwise it is allowed exactly when the fork height is
strictly greater than the nearest checkpoint height at or below the
chain height. -/
theorem C1_is_alternative_block_allowed_boundary (st : checkpoints)
    (chain_height fork_height : Height) (hfork : 0 < fork_height) :
    ((∀ k ∈ mapKeys st.m_points, chain_height < k) →
        is_alternative_block_allowed st chain_height fork_height = true) ∧
    ∀ k, k ∈ mapKeys st.m_points → k ≤ chain_height →
      (∀ k2 ∈ mapKeys st.m_points, k2 ≤ chain_height → k2 ≤ k) →
      (is_alternative_block_allowed st chain_height fork_height = true ↔
        k < fork_height) := by
  have hfz : fork_height ≠ 0 := Nat.pos_iff_ne_zero.mp hfork
  constructor
  · intro hall
    have hnone := (maxKeyLE_eq_none_iff st.m_points chain_height).mpr hall
    simp [is_alternative_block_allowed, hfz, hnone]
  · intro k hmem hle hgreat
    have hsome := maxKeyLE_eq_some_of_greatest hmem hle hgreat
    simp [is_alternative_block_allowed, hfz, hsome]

theorem C1_is_alternative_block_allowed_boundary_witness :
    is_alternative_block_allowed cpStore100_500 600 501 = true :=
  ((C1_is_alternative_block_allowed_boundary cpStore100_500 600 501 (by decide)).2
      500 (by decide) (by decide) (by decide)).mpr (by decide)

/-- Claim C2, counterexample: merging the store holding height 5 into an
empty store via `check_for_conflicts` reports success, yet the anchor at
height 5 has not been applied to the receiving store — refuting the
claim that the merge applies `insert` for every hash anchor of the other
store. -/
theorem C2_counterexample :
    (check_for_conflicts cpEmpty ⟨[(5, [7])], []⟩).2 = true ∧
      mapFind? (check_for_conflicts cpEmpty ⟨[(5, [7])], []⟩).1.m_points 5 = none := by
  decide

/-- Claim C2 (amended): `check_for_conflicts` only checks and never
inserts: the receiving store comes back unchanged; the result is false
whenever some anchor of the other store disagrees with a stored hash,
and true when every shared height agrees; on the two stores sharing one
agreeing height (10) and one disagreeing height (20), the merge reports
the conflict by returning false, the agreeing height is present once
with the shared hash, and the disagreeing height retains the value of
the first store. -/
theorem C2_check_for_conflicts_behaviour :
    (∀ a b : checkpoints, (check_for_conflicts a b).1 = a) ∧
    (∀ (a b : checkpoints) (k : Height) (v mine : Hash),
        (k, v) ∈ b.m_points → mapFind? a.m_points k = some mine → v ≠ mine →
        (check_for_conflicts a b).2 = false) ∧
    (∀ a b : checkpoints,
        (∀ k v, (k, v) ∈ b.m_points →
          ∀ mine, mapFind? a.m_points k = some mine → v = mine) →
        (check_for_conflicts a b).2 = true) ∧
    ((check_for_conflicts cpA cpB).2 = false ∧
      (check_for_conflicts cpA cpB).1 = cpA ∧
      (mapKeys (check_for_conflicts cpA cpB).1.m_points).count 10 = 1 ∧
      mapFind? (check_for_conflicts cpA cpB).1.m_points 10 = some [1] ∧
      mapFind? (check_for_conflicts cpA cpB).1.m_points 20 = some [2]) := by
  refine ⟨fun a b => rfl, ?_, ?_, by decide⟩
  · intro a b k v mine hmem hfind hne
    exact conflict_scan_eq_false hmem hfind hne
  · intro a b hagree
    exact conflict_scan_eq_true hagree

theorem C2_check_for_conflicts_behaviour_witness :
    (check_for_conflicts cpA cpB).2 = false :=
  C2_check_for_conflicts_behaviour.2.1 cpA cpB 20 [3] [2]
    (by decide) (by decide) (by decide)

end cryptonote
